import Mathlib

/-!
# Verification of the ngres resource compiler (ProGearSDK)

Shallow embedding of the algorithmic core of `tools/ngres.py`:
the YM2610 ADPCM-A and ADPCM-B encoders, nibble packing, the
sprite-tile C-ROM encoder, V-ROM audio address layout, the palette
registry, and the TMX tile-grid / collision processing, together with
theorems settling the specification's claims about them.

Python's arithmetic conventions are preserved: `//` and `>>` on
negative integers round toward negative infinity, which is `Int.fdiv`
(and `Int` division by a positive power of two for `>>>`), and `<<` is
multiplication by a power of two.
-/

namespace NGRes

/-! ## ADPCM-A (fixed-rate, 12-bit) codec from `ngres.py` -/

/-- `ADPCM_A.STEP_SIZE`: adaptive step sizes for quantization (49 entries). -/
def STEP_SIZE : List Int :=
  [16, 17, 19, 21, 23, 25, 28,
   31, 34, 37, 41, 45, 50, 55,
   60, 66, 73, 80, 88, 97, 107,
   118, 130, 143, 157, 173, 190, 209,
   230, 253, 279, 307, 337, 371, 408,
   449, 494, 544, 598, 658, 724, 796,
   876, 963, 1060, 1166, 1282, 1411, 1552]

/-- `ADPCM_A.STEP_ADJ`: step adjustment based on magnitude. -/
def STEP_ADJ : List Int := [-1, -1, -1, -1, 2, 5, 7, 9]

/-- Encoder state of `ADPCM_A`: `self.step_index` and `self.sample12`. -/
structure AState where
  step_index : Int
  sample12 : Int
deriving Repr, DecidableEq

/-- `ADPCM_A.reset`. -/
def AState.reset : AState := { step_index := 0, sample12 := 0 }

/-- `self.STEP_SIZE[self.step_index]` (the index is always kept in 0..48). -/
def stepSizeA (i : Int) : Int := STEP_SIZE.getD i.toNat 0

/-- `self.STEP_ADJ[magnitude]` (the magnitude is always in 0..7). -/
def stepAdjA (m : Nat) : Int := STEP_ADJ.getD m 0

namespace ADPCM_A

/-- `ADPCM_A._decode_sample`: decode a 4-bit code to update the state,
returning the new state and the decoded (clamped) sample. -/
def decode_sample (st : AState) (adpcm4 : Nat) : AState × Int :=
  let step_size := stepSizeA st.step_index
  let sign := adpcm4 &&& 8
  let magnitude := adpcm4 &&& 7
  let quantized_diff := ((2 * (magnitude : Int) + 1) * step_size) >>> (3 : Nat)
  let quantized_diff := if sign ≠ 0 then -quantized_diff else quantized_diff
  let decoded := st.sample12 + quantized_diff
  let decoded := max (-2048) (min decoded 2047)
  let new_index := st.step_index + stepAdjA magnitude
  let new_index := max 0 (min new_index 48)
  ({ step_index := new_index, sample12 := decoded }, decoded)

/-- `ADPCM_A._encode_sample`: encode one 12-bit sample to a 4-bit code,
updating state by replaying the decoder on the emitted code. -/
def encode_sample (st : AState) (sample12 : Int) : Nat × AState :=
  let diff := sample12 - st.sample12
  let sign : Nat := if diff < 0 then 8 else 0
  let diff := |diff|
  let threshold := stepSizeA st.step_index
  let magnitude : Nat := if diff ≥ threshold then 0 ||| 4 else 0
  let diff := if diff ≥ threshold then diff - threshold else diff
  let threshold := threshold >>> (1 : Nat)
  let magnitude : Nat := if diff ≥ threshold then magnitude ||| 2 else magnitude
  let diff := if diff ≥ threshold then diff - threshold else diff
  let threshold := threshold >>> (1 : Nat)
  let magnitude : Nat := if diff ≥ threshold then magnitude ||| 1 else magnitude
  let adpcm4 := sign ||| magnitude
  (adpcm4, (decode_sample st adpcm4).1)

/-- Run a per-sample encoder over a sample list, threading the state
(the list comprehension in `ADPCM_A.encode` / `ADPCM_B.encode`). -/
def runEncoder {σ : Type} (f : σ → Int → Nat × σ) : σ → List Int → List Nat
  | _, [] => []
  | st, s :: rest =>
    let cs := f st s
    cs.1 :: runEncoder f cs.2 rest

/-- As `runEncoder`, but recording for each emitted code the state before
and after it (used to state the self-decode invariant). -/
def encoderTrace {σ : Type} (f : σ → Int → Nat × σ) :
    σ → List Int → List (σ × Nat × σ)
  | _, [] => []
  | st, s :: rest =>
    let cs := f st s
    (st, cs.1, cs.2) :: encoderTrace f cs.2 rest

/-- `ADPCM_A.encode`: reset, pad with zero samples to a 512-sample
boundary, then encode each sample. -/
def encode (samples12 : List Int) : List Nat :=
  let pad_len := ((samples12.length + 511) / 512) * 512
  let padding := List.replicate (pad_len - samples12.length) (0 : Int)
  runEncoder encode_sample AState.reset (samples12 ++ padding)

/-- `ADPCM_A.encode_s16`: convert 16-bit samples to 12 bits by an
arithmetic right shift by 4, then encode. -/
def encode_s16 (samples : List Int) : List Nat :=
  encode (samples.map (fun (s : Int) => s >>> (4 : Nat)))

end ADPCM_A

/-! ## ADPCM-B (variable-rate, 16-bit) codec from `ngres.py` -/

/-- `ADPCM_B.STEP_TABLE`: step adjustment table. -/
def STEP_TABLE : List Int := [57, 57, 57, 57, 77, 102, 128, 153]

/-- Encoder state of `ADPCM_B`: `self.step_size` and `self.sample16`. -/
structure BState where
  step_size : Int
  sample16 : Int
deriving Repr, DecidableEq

/-- `ADPCM_B.reset`. -/
def BState.reset : BState := { step_size := 127, sample16 := 0 }

namespace ADPCM_B

/-- `ADPCM_B._decode_sample`: decode a 4-bit code to update the state,
returning the new state and the decoded (clamped) sample. -/
def decode_sample (st : BState) (adpcm4 : Nat) : BState × Int :=
  let sign := adpcm4 &&& 8
  let magnitude := adpcm4 &&& 7
  let quantized_diff := ((2 * (magnitude : Int) + 1) * st.step_size) >>> (3 : Nat)
  let quantized_diff := if sign ≠ 0 then -quantized_diff else quantized_diff
  let decoded := st.sample16 + quantized_diff
  let decoded := max (-32768) (min decoded 32767)
  let new_step := (st.step_size * STEP_TABLE.getD magnitude 0) >>> (6 : Nat)
  let new_step := max 127 (min new_step 24576)
  ({ step_size := new_step, sample16 := decoded }, decoded)

/-- `ADPCM_B._encode_sample`: encode one 16-bit sample to a 4-bit code
(`(abs(diff) << 16) // (self.step_size << 14)`, capped at 7), updating
state by replaying the decoder on the emitted code.  The 4-bit code is
carried as a `Nat`; for every state the program reaches the magnitude
is in 0..7, so `Int.toNat` is exact. -/
def encode_sample (st : BState) (sample16 : Int) : Nat × BState :=
  let diff := sample16 - st.sample16
  let magnitude := Int.fdiv (|diff| * 2 ^ 16) (st.step_size * 2 ^ 14)
  let magnitude := min magnitude 7
  let sign : Nat := if diff < 0 then 8 else 0
  let adpcm4 := sign ||| magnitude.toNat
  (adpcm4, (decode_sample st adpcm4).1)

/-- `ADPCM_B.encode`: reset, pad with zero samples to a 512-sample
boundary, then encode each sample. -/
def encode (samples16 : List Int) : List Nat :=
  let pad_len := ((samples16.length + 511) / 512) * 512
  let padding := List.replicate (pad_len - samples16.length) (0 : Int)
  ADPCM_A.runEncoder encode_sample BState.reset (samples16 ++ padding)

/-- `ADPCM_B.encode_s16` just delegates to `encode`. -/
def encode_s16 (samples : List Int) : List Nat :=
  encode samples

end ADPCM_B

/-- `pack_adpcm`: pack 4-bit codes two per byte, first in the high
nibble.  Python indexes `adpcm_nibbles[i + 1]` and would fault on an
odd-length list, hence the `Option`. -/
def pack_adpcm : List Nat → Option (List Nat)
  | [] => some []
  | [_] => none
  | a :: b :: rest => (pack_adpcm rest).map (fun p => ((a <<< 4) ||| b) :: p)

/-! ## Helper lemmas for the codecs -/

/-- Every entry of a list of nonnegative integers is fetched nonnegative. -/
theorem getD_nonneg : ∀ (l : List Int) (n : Nat), (∀ x ∈ l, 0 ≤ x) → 0 ≤ l.getD n 0
  | [], _, _ => le_refl 0
  | x :: _, 0, h => h x (List.mem_cons_self _ _)
  | _ :: xs, n + 1, h => by
    rw [List.getD_cons_succ]
    exact getD_nonneg xs n (fun y hy => h y (List.mem_cons_of_mem _ hy))

/-- The ADPCM-A step size is never negative (table entries are positive,
the out-of-range default is 0). -/
theorem stepSizeA_nonneg (i : Int) : 0 ≤ stepSizeA i :=
  getD_nonneg _ _ (by decide)

/-- `_encode_sample` of ADPCM-A returns exactly the state produced by
`_decode_sample` on the code it emits. -/
theorem encode_sample_A_self_decode (st : AState) (s : Int) :
    ∃ a, ADPCM_A.encode_sample st s = (a, (ADPCM_A.decode_sample st a).1) :=
  ⟨_, rfl⟩

/-- `_encode_sample` of ADPCM-B returns exactly the state produced by
`_decode_sample` on the code it emits. -/
theorem encode_sample_B_self_decode (st : BState) (s : Int) :
    ∃ a, ADPCM_B.encode_sample st s = (a, (ADPCM_B.decode_sample st a).1) :=
  ⟨_, rfl⟩

/-- The ADPCM-A decoder always leaves `sample12` clamped to [-2048, 2047]. -/
theorem decode_sample_A_range (st : AState) (a : Nat) :
    -2048 ≤ (ADPCM_A.decode_sample st a).1.sample12 ∧
      (ADPCM_A.decode_sample st a).1.sample12 ≤ 2047 := by
  show -2048 ≤ max (-2048) (min _ 2047) ∧ max (-2048) (min _ 2047) ≤ 2047
  constructor
  · exact le_max_left _ _
  · exact max_le (by norm_num) (min_le_right _ _)

/-- The ADPCM-B decoder always leaves `sample16` clamped to [-32768, 32767]. -/
theorem decode_sample_B_range (st : BState) (a : Nat) :
    -32768 ≤ (ADPCM_B.decode_sample st a).1.sample16 ∧
      (ADPCM_B.decode_sample st a).1.sample16 ≤ 32767 := by
  show -32768 ≤ max (-32768) (min _ 32767) ∧ max (-32768) (min _ 32767) ≤ 32767
  constructor
  · exact le_max_left _ _
  · exact max_le (by norm_num) (min_le_right _ _)

/-- The codes recorded in an encoder trace are the encoder's output. -/
theorem encoderTrace_map_code {σ : Type} (f : σ → Int → Nat × σ) :
    ∀ (l : List Int) (st : σ),
      (ADPCM_A.encoderTrace f st l).map (fun t => t.2.1) = ADPCM_A.runEncoder f st l
  | [], _ => rfl
  | _ :: rest, st => by
    simp only [ADPCM_A.encoderTrace, ADPCM_A.runEncoder, List.map_cons]
    exact congrArg _ (encoderTrace_map_code f rest _)

/-- Every step of an ADPCM-A encoding run replays the decoder and keeps
the predicted sample in the clamped 12-bit range. -/
theorem traceA_invariant : ∀ (l : List Int) (st : AState),
    ∀ t ∈ ADPCM_A.encoderTrace ADPCM_A.encode_sample st l,
      t.2.2 = (ADPCM_A.decode_sample t.1 t.2.1).1 ∧
        -2048 ≤ t.2.2.sample12 ∧ t.2.2.sample12 ≤ 2047
  | [], _, t, ht => absurd ht (List.not_mem_nil t)
  | s :: rest, st, t, ht => by
    simp only [ADPCM_A.encoderTrace, List.mem_cons] at ht
    rcases ht with h | h
    · obtain ⟨a, ha⟩ := encode_sample_A_self_decode st s
      subst h
      refine ⟨?_, ?_⟩
      · show (ADPCM_A.encode_sample st s).2 = _
        rw [ha]
      · rw [show ((ADPCM_A.encode_sample st s).2) = (ADPCM_A.decode_sample st a).1 by rw [ha]]
        exact decode_sample_A_range st a
    · exact traceA_invariant rest _ t h

/-- Every step of an ADPCM-B encoding run replays the decoder and keeps
the predicted sample in the clamped 16-bit range. -/
theorem traceB_invariant : ∀ (l : List Int) (st : BState),
    ∀ t ∈ ADPCM_A.encoderTrace ADPCM_B.encode_sample st l,
      t.2.2 = (ADPCM_B.decode_sample t.1 t.2.1).1 ∧
        -32768 ≤ t.2.2.sample16 ∧ t.2.2.sample16 ≤ 32767
  | [], _, t, ht => absurd ht (List.not_mem_nil t)
  | s :: rest, st, t, ht => by
    simp only [ADPCM_A.encoderTrace, List.mem_cons] at ht
    rcases ht with h | h
    · obtain ⟨a, ha⟩ := encode_sample_B_self_decode st s
      subst h
      refine ⟨?_, ?_⟩
      · show (ADPCM_B.encode_sample st s).2 = _
        rw [ha]
      · rw [show ((ADPCM_B.encode_sample st s).2) = (ADPCM_B.decode_sample st a).1 by rw [ha]]
        exact decode_sample_B_range st a
    · exact traceB_invariant rest _ t h

/-- The length of an encoding run equals the length of its input. -/
theorem runEncoder_length {σ : Type} (f : σ → Int → Nat × σ) :
    ∀ (l : List Int) (st : σ), (ADPCM_A.runEncoder f st l).length = l.length
  | [], _ => rfl
  | _ :: rest, st => by
    simp only [ADPCM_A.runEncoder, List.length_cons]
    rw [runEncoder_length f rest]

/-- ADPCM-A emits exactly the input length rounded up to 512. -/
theorem encode_A_length (samples : List Int) :
    (ADPCM_A.encode samples).length = ((samples.length + 511) / 512) * 512 := by
  unfold ADPCM_A.encode
  rw [runEncoder_length]
  simp only [List.length_append, List.length_replicate]
  omega

/-- ADPCM-B emits exactly the input length rounded up to 512. -/
theorem encode_B_length (samples : List Int) :
    (ADPCM_B.encode samples).length = ((samples.length + 511) / 512) * 512 := by
  unfold ADPCM_B.encode
  rw [runEncoder_length]
  simp only [List.length_append, List.length_replicate]
  omega

/-- `pack_adpcm` on an even-length code list: it succeeds, halves the
length, and byte `i` is code `2i` in the high nibble or-ed with code
`2i+1` in the low nibble. -/
theorem pack_adpcm_spec : ∀ (l : List Nat), l.length % 2 = 0 →
    ∃ p, pack_adpcm l = some p ∧ 2 * p.length = l.length ∧
      ∀ i, p.getD i 0 = ((l.getD (2 * i) 0) <<< 4) ||| (l.getD (2 * i + 1) 0)
  | [], _ => ⟨[], rfl, rfl, fun i => by simp [List.getD_nil]⟩
  | [_], h => by simp at h
  | a :: b :: rest, h => by
    obtain ⟨p, hp, hlen, hidx⟩ := pack_adpcm_spec rest (by
      simp only [List.length_cons] at h ⊢
      omega)
    refine ⟨((a <<< 4) ||| b) :: p, ?_, ?_, ?_⟩
    · simp [pack_adpcm, hp]
    · simp only [List.length_cons]
      omega
    · intro i
      cases i with
      | zero => simp [List.getD_cons_zero, List.getD_cons_succ]
      | succ n =>
        have h2 : 2 * (n + 1) = 2 * n + 1 + 1 := by omega
        rw [List.getD_cons_succ, h2]
        simp only [List.getD_cons_succ]
        exact hidx n

/-! ## Claim theorems: C1, C4, C10 -/

/-- C1: For every input stream to either ADPCM encoder, after each
emitted 4-bit code the encoder's internal predicted sample equals the
value obtained by decoding that very code with the shared decoder
state update, and the predicted value stays in [-2048, 2047] for the
fixed-rate codec and in [-32768, 32767] for the variable-rate codec;
the trace's codes are exactly the encoder's output. -/
theorem C1_encoder_self_decode_invariant (samplesA samplesB : List Int) :
    (∀ t ∈ ADPCM_A.encoderTrace ADPCM_A.encode_sample AState.reset samplesA,
        t.2.2 = (ADPCM_A.decode_sample t.1 t.2.1).1 ∧
          -2048 ≤ t.2.2.sample12 ∧ t.2.2.sample12 ≤ 2047) ∧
    (∀ t ∈ ADPCM_A.encoderTrace ADPCM_B.encode_sample BState.reset samplesB,
        t.2.2 = (ADPCM_B.decode_sample t.1 t.2.1).1 ∧
          -32768 ≤ t.2.2.sample16 ∧ t.2.2.sample16 ≤ 32767) ∧
    (ADPCM_A.encoderTrace ADPCM_A.encode_sample AState.reset samplesA).map (fun t => t.2.1) =
      ADPCM_A.runEncoder ADPCM_A.encode_sample AState.reset samplesA ∧
    (ADPCM_A.encoderTrace ADPCM_B.encode_sample BState.reset samplesB).map (fun t => t.2.1) =
      ADPCM_A.runEncoder ADPCM_B.encode_sample BState.reset samplesB :=
  ⟨traceA_invariant samplesA AState.reset, traceB_invariant samplesB BState.reset,
   encoderTrace_map_code _ samplesA _, encoderTrace_map_code _ samplesB _⟩

/-- Witness for C1 at the concrete one-sample streams [100] and [10000]. -/
theorem C1_encoder_self_decode_invariant_witness :
    ((⟨9, 30⟩ : AState) = (ADPCM_A.decode_sample AState.reset 7).1 ∧
      -2048 ≤ (AState.mk 9 30).sample12 ∧ (AState.mk 9 30).sample12 ≤ 2047) ∧
    ((⟨303, 238⟩ : BState) = (ADPCM_B.decode_sample BState.reset 7).1 ∧
      -32768 ≤ (BState.mk 303 238).sample16 ∧ (BState.mk 303 238).sample16 ≤ 32767) :=
  ⟨(C1_encoder_self_decode_invariant [100] [10000]).1
      (AState.reset, 7, ⟨9, 30⟩) (by decide),
   (C1_encoder_self_decode_invariant [100] [10000]).2.1
      (BState.reset, 7, ⟨303, 238⟩) (by decide)⟩

/-- C4: both encoders pad the input with zero samples to the next
512-sample boundary, so the code count is a multiple of 512 and the
packed output a multiple of 256 bytes; `pack_adpcm` packs consecutive
code pairs two per byte in encode order, first code in the high nibble
and second in the low nibble. -/
theorem C4_padding_and_packing (samples12 samples16 : List Int) :
    ADPCM_A.encode samples12 =
      ADPCM_A.runEncoder ADPCM_A.encode_sample AState.reset
        (samples12 ++ List.replicate
          (((samples12.length + 511) / 512) * 512 - samples12.length) 0) ∧
    (ADPCM_A.encode samples12).length = ((samples12.length + 511) / 512) * 512 ∧
    (ADPCM_A.encode samples12).length % 512 = 0 ∧
    ADPCM_B.encode samples16 =
      ADPCM_A.runEncoder ADPCM_B.encode_sample BState.reset
        (samples16 ++ List.replicate
          (((samples16.length + 511) / 512) * 512 - samples16.length) 0) ∧
    (ADPCM_B.encode samples16).length = ((samples16.length + 511) / 512) * 512 ∧
    (ADPCM_B.encode samples16).length % 512 = 0 ∧
    (∃ pA, pack_adpcm (ADPCM_A.encode samples12) = some pA ∧
      2 * pA.length = (ADPCM_A.encode samples12).length ∧ pA.length % 256 = 0 ∧
      ∀ i, pA.getD i 0 =
        (((ADPCM_A.encode samples12).getD (2 * i) 0) <<< 4) |||
          ((ADPCM_A.encode samples12).getD (2 * i + 1) 0)) ∧
    (∃ pB, pack_adpcm (ADPCM_B.encode samples16) = some pB ∧
      2 * pB.length = (ADPCM_B.encode samples16).length ∧ pB.length % 256 = 0 ∧
      ∀ i, pB.getD i 0 =
        (((ADPCM_B.encode samples16).getD (2 * i) 0) <<< 4) |||
          ((ADPCM_B.encode samples16).getD (2 * i + 1) 0)) := by
  have hA := encode_A_length samples12
  have hB := encode_B_length samples16
  have hA2 : (ADPCM_A.encode samples12).length % 2 = 0 := by omega
  have hB2 : (ADPCM_B.encode samples16).length % 2 = 0 := by omega
  obtain ⟨pA, hpA, hlenA, hidxA⟩ := pack_adpcm_spec _ hA2
  obtain ⟨pB, hpB, hlenB, hidxB⟩ := pack_adpcm_spec _ hB2
  refine ⟨rfl, hA, by omega, rfl, hB, by omega, ⟨pA, hpA, hlenA, ?_, hidxA⟩,
    ⟨pB, hpB, hlenB, ?_, hidxB⟩⟩
  · omega
  · omega

/-- Witness for C4 at the empty input streams. -/
theorem C4_padding_and_packing_witness :
    (ADPCM_A.encode []).length % 512 = 0 ∧ (ADPCM_B.encode []).length % 512 = 0 :=
  ⟨(C4_padding_and_packing [] []).2.2.1,
   (C4_padding_and_packing [] []).2.2.2.2.2.1⟩

/-- C10: the 16-to-12-bit conversion of `ADPCM_A.encode_s16` (arithmetic
right shift by 4) maps [-32768, 32767] into [-2048, 2047], so every
sample reaching the fixed-rate codec core, including zero padding,
satisfies the 12-bit precondition. -/
theorem C10_s16_conversion_range (samples : List Int) (k : Nat)
    (h : ∀ s ∈ samples, -32768 ≤ s ∧ s ≤ 32767) :
    ADPCM_A.encode_s16 samples =
      ADPCM_A.encode (samples.map (fun (s : Int) => s >>> (4 : Nat))) ∧
    ∀ x ∈ samples.map (fun (s : Int) => s >>> (4 : Nat)) ++ List.replicate k (0 : Int),
      -2048 ≤ x ∧ x ≤ 2047 := by
  refine ⟨rfl, ?_⟩
  intro x hx
  rw [List.mem_append] at hx
  rcases hx with hx | hx
  · rw [List.mem_map] at hx
    obtain ⟨s, hs, rfl⟩ := hx
    obtain ⟨h1, h2⟩ := h s hs
    rw [Int.shiftRight_eq_div_pow]
    norm_num
    omega
  · rw [List.eq_of_mem_replicate hx]
    norm_num

/-- Witness for C10 at the boundary samples 32767 and -32768. -/
theorem C10_s16_conversion_range_witness :
    (∀ s ∈ [(32767 : Int), -32768], -32768 ≤ s ∧ s ≤ 32767) ∧
    (∀ x ∈ [(32767 : Int), -32768].map (fun (s : Int) => s >>> (4 : Nat)) ++
        List.replicate 1 (0 : Int), -2048 ≤ x ∧ x ≤ 2047) :=
  ⟨by decide, (C10_s16_conversion_range [32767, -32768] 1 (by decide)).2⟩

/-! ## Claims C2 and C3: the encoder steps as the spec describes them -/

/-- Spec-side restatement of the fixed-rate encoder step for claim C2:
magnitude by successive thresholding against the step size, half of
it, then a quarter, subtracting each matched threshold; reconstruction
`((2*magnitude+1)*step) / 8`, sign applied, clamped to [-2048, 2047];
step index adapted by the `STEP_ADJ` entry for the magnitude, clamped
to 0..48. -/
def specEncodeSampleA (st : AState) (sample12 : Int) : Nat × AState :=
  let step := stepSizeA st.step_index
  let adiff := |sample12 - st.sample12|
  let sign : Nat := if sample12 - st.sample12 < 0 then 8 else 0
  let m4 : Nat := if adiff ≥ step then 4 else 0
  let d1 : Int := if adiff ≥ step then adiff - step else adiff
  let m2 : Nat := if d1 ≥ step / 2 then 2 else 0
  let d2 : Int := if d1 ≥ step / 2 then d1 - step / 2 else d1
  let m1 : Nat := if d2 ≥ step / 4 then 1 else 0
  let magnitude := m4 + m2 + m1
  let code := sign + magnitude
  let reconstructed := ((2 * (magnitude : Int) + 1) * step) / 8
  let signed := if sign = 8 then -reconstructed else reconstructed
  let decoded := max (-2048) (min (st.sample12 + signed) 2047)
  let new_index := max 0 (min (st.step_index + stepAdjA magnitude) 48)
  (code, { step_index := new_index, sample12 := decoded })

set_option maxHeartbeats 1600000 in
/-- C2: for every state and 12-bit sample the fixed-rate encoder step
equals its spec-side restatement `specEncodeSampleA`, the step-size
table has 49 strictly increasing entries, and the step adjustment
table is (-1,-1,-1,-1,2,5,7,9). -/
theorem C2_fixed_rate_encoder_step (st : AState) (s : Int) :
    ADPCM_A.encode_sample st s = specEncodeSampleA st s ∧
    STEP_SIZE.length = 49 ∧
    (∀ i : Fin 48, STEP_SIZE.getD i.val 0 < STEP_SIZE.getD (i.val + 1) 0) ∧
    STEP_ADJ = [-1, -1, -1, -1, 2, 5, 7, 9] := by
  refine ⟨?_, rfl, by decide, rfl⟩
  have hdiv2 : stepSizeA st.step_index >>> (1:Nat) = stepSizeA st.step_index / 2 := by
    rw [Int.shiftRight_eq_div_pow]; norm_num
  have hdiv4 : (stepSizeA st.step_index / 2) >>> (1:Nat) = stepSizeA st.step_index / 4 := by
    rw [Int.shiftRight_eq_div_pow]; norm_num; omega
  have hsh3 : ∀ a : Int, a >>> (3:Nat) = a / 8 := fun a => by
    rw [Int.shiftRight_eq_div_pow]; norm_num
  simp only [ADPCM_A.encode_sample, specEncodeSampleA, ADPCM_A.decode_sample,
    hdiv2, hdiv4, hsh3]
  by_cases hs : s - st.sample12 < 0 <;>
  by_cases hc1 : |s - st.sample12| ≥ stepSizeA st.step_index <;>
  simp only [hs, hc1, if_true, if_false, ite_true, ite_false, not_false_iff,
    if_pos, if_neg] <;>
  split_ifs <;>
  simp_all [Prod.mk.injEq, AState.mk.injEq,
    show (15:Nat) &&& 7 = 7 from rfl, show (14:Nat) &&& 7 = 6 from rfl,
    show (13:Nat) &&& 7 = 5 from rfl, show (12:Nat) &&& 7 = 4 from rfl,
    show (11:Nat) &&& 7 = 3 from rfl, show (10:Nat) &&& 7 = 2 from rfl,
    show (9:Nat) &&& 7 = 1 from rfl, show (8:Nat) &&& 7 = 0 from rfl,
    show (7:Nat) &&& 7 = 7 from rfl, show (6:Nat) &&& 7 = 6 from rfl,
    show (5:Nat) &&& 7 = 5 from rfl, show (4:Nat) &&& 7 = 4 from rfl,
    show (3:Nat) &&& 7 = 3 from rfl, show (2:Nat) &&& 7 = 2 from rfl,
    show (1:Nat) &&& 7 = 1 from rfl, show (0:Nat) &&& 7 = 0 from rfl,
    show (15:Nat) &&& 8 = 8 from rfl, show (14:Nat) &&& 8 = 8 from rfl,
    show (13:Nat) &&& 8 = 8 from rfl, show (12:Nat) &&& 8 = 8 from rfl,
    show (11:Nat) &&& 8 = 8 from rfl, show (10:Nat) &&& 8 = 8 from rfl,
    show (9:Nat) &&& 8 = 8 from rfl, show (8:Nat) &&& 8 = 8 from rfl,
    show (7:Nat) &&& 8 = 0 from rfl, show (6:Nat) &&& 8 = 0 from rfl,
    show (5:Nat) &&& 8 = 0 from rfl, show (4:Nat) &&& 8 = 0 from rfl,
    show (3:Nat) &&& 8 = 0 from rfl, show (2:Nat) &&& 8 = 0 from rfl,
    show (1:Nat) &&& 8 = 0 from rfl, show (0:Nat) &&& 8 = 0 from rfl,
    show stepAdjA 0 = -1 from rfl, show stepAdjA 1 = -1 from rfl,
    show stepAdjA 2 = -1 from rfl, show stepAdjA 3 = -1 from rfl,
    show stepAdjA 4 = 2 from rfl, show stepAdjA 5 = 5 from rfl,
    show stepAdjA 6 = 7 from rfl, show stepAdjA 7 = 9 from rfl]

/-- Spec-side restatement of the variable-rate encoder step for claim
C3: magnitude `min(7, (|sample - predicted| << 16) / (step << 14))`,
the same shift-based reconstruction using the running step value,
clamp to [-32768, 32767], and the step update
`clamp((step * T[magnitude]) >> 6, 127, 24576)`. -/
def specEncodeSampleB (st : BState) (sample16 : Int) : Nat × BState :=
  let diff := sample16 - st.sample16
  let magnitude : Int := min 7 ((|diff| * 2 ^ 16) / (st.step_size * 2 ^ 14))
  let sign : Nat := if diff < 0 then 8 else 0
  let code := sign + magnitude.toNat
  let reconstructed := ((2 * magnitude + 1) * st.step_size) / 8
  let delta := if sign = 8 then -reconstructed else reconstructed
  let decoded := max (-32768) (min (st.sample16 + delta) 32767)
  let new_step := max 127 (min ((st.step_size * STEP_TABLE.getD magnitude.toNat 0) / 64) 24576)
  (code, { step_size := new_step, sample16 := decoded })

set_option maxHeartbeats 1600000 in
/-- C3: for every state with positive step (the program keeps it in
[127, 24576]) the variable-rate encoder step equals its spec-side
restatement `specEncodeSampleB`; the adjustment table is
(57,57,57,57,77,102,128,153) and the initial step is 127. -/
theorem C3_variable_rate_encoder_step (st : BState) (s : Int)
    (hstep : 0 < st.step_size) :
    ADPCM_B.encode_sample st s = specEncodeSampleB st s ∧
    BState.reset.step_size = 127 ∧
    STEP_TABLE = [57, 57, 57, 57, 77, 102, 128, 153] := by
  refine ⟨?_, rfl, rfl⟩
  have hsh3 : ∀ a : Int, a >>> (3:Nat) = a / 8 := fun a => by
    rw [Int.shiftRight_eq_div_pow]; norm_num
  have hsh6 : ∀ a : Int, a >>> (6:Nat) = a / 64 := fun a => by
    rw [Int.shiftRight_eq_div_pow]; norm_num
  have hfd : Int.fdiv (|s - st.sample16| * 2 ^ 16) (st.step_size * 2 ^ 14)
      = (|s - st.sample16| * 2 ^ 16) / (st.step_size * 2 ^ 14) :=
    Int.fdiv_eq_ediv _ (by positivity)
  have hq0 : 0 ≤ (|s - st.sample16| * 2 ^ 16) / (st.step_size * 2 ^ 14) :=
    Int.ediv_nonneg (by positivity) (by positivity)
  simp only [ADPCM_B.encode_sample, specEncodeSampleB, ADPCM_B.decode_sample,
    hsh3, hsh6, hfd, min_comm ((|s - st.sample16| * 2 ^ 16) / (st.step_size * 2 ^ 14)) 7]
  have hm1 : 0 ≤ min 7 ((|s - st.sample16| * 2 ^ 16) / (st.step_size * 2 ^ 14)) :=
    le_min (by norm_num) hq0
  have hm2 : min 7 ((|s - st.sample16| * 2 ^ 16) / (st.step_size * 2 ^ 14)) ≤ 7 :=
    min_le_left _ _
  rcases (by omega : min 7 ((|s - st.sample16| * 2 ^ 16) / (st.step_size * 2 ^ 14)) = 0 ∨
      min 7 ((|s - st.sample16| * 2 ^ 16) / (st.step_size * 2 ^ 14)) = 1 ∨
      min 7 ((|s - st.sample16| * 2 ^ 16) / (st.step_size * 2 ^ 14)) = 2 ∨
      min 7 ((|s - st.sample16| * 2 ^ 16) / (st.step_size * 2 ^ 14)) = 3 ∨
      min 7 ((|s - st.sample16| * 2 ^ 16) / (st.step_size * 2 ^ 14)) = 4 ∨
      min 7 ((|s - st.sample16| * 2 ^ 16) / (st.step_size * 2 ^ 14)) = 5 ∨
      min 7 ((|s - st.sample16| * 2 ^ 16) / (st.step_size * 2 ^ 14)) = 6 ∨
      min 7 ((|s - st.sample16| * 2 ^ 16) / (st.step_size * 2 ^ 14)) = 7) with
    hm | hm | hm | hm | hm | hm | hm | hm <;>
  rw [hm] <;>
  by_cases hsgn : s - st.sample16 < 0 <;>
  simp only [hsgn, if_true, if_false, ite_true, ite_false] <;>
  simp_all [Prod.mk.injEq, BState.mk.injEq,
    show ((0:Int).toNat) = 0 from rfl, show ((1:Int).toNat) = 1 from rfl,
    show ((2:Int).toNat) = 2 from rfl, show ((3:Int).toNat) = 3 from rfl,
    show ((4:Int).toNat) = 4 from rfl, show ((5:Int).toNat) = 5 from rfl,
    show ((6:Int).toNat) = 6 from rfl, show ((7:Int).toNat) = 7 from rfl,
    show ((8:Nat) ||| 0) = 8 from rfl, show ((8:Nat) ||| 1) = 9 from rfl,
    show ((8:Nat) ||| 2) = 10 from rfl, show ((8:Nat) ||| 3) = 11 from rfl,
    show ((8:Nat) ||| 4) = 12 from rfl, show ((8:Nat) ||| 5) = 13 from rfl,
    show ((8:Nat) ||| 6) = 14 from rfl, show ((8:Nat) ||| 7) = 15 from rfl,
    show ((0:Nat) ||| 0) = 0 from rfl, show ((0:Nat) ||| 1) = 1 from rfl,
    show ((0:Nat) ||| 2) = 2 from rfl, show ((0:Nat) ||| 3) = 3 from rfl,
    show ((0:Nat) ||| 4) = 4 from rfl, show ((0:Nat) ||| 5) = 5 from rfl,
    show ((0:Nat) ||| 6) = 6 from rfl, show ((0:Nat) ||| 7) = 7 from rfl,
    show (15:Nat) &&& 7 = 7 from rfl, show (14:Nat) &&& 7 = 6 from rfl,
    show (13:Nat) &&& 7 = 5 from rfl, show (12:Nat) &&& 7 = 4 from rfl,
    show (11:Nat) &&& 7 = 3 from rfl, show (10:Nat) &&& 7 = 2 from rfl,
    show (9:Nat) &&& 7 = 1 from rfl, show (8:Nat) &&& 7 = 0 from rfl,
    show (7:Nat) &&& 7 = 7 from rfl, show (6:Nat) &&& 7 = 6 from rfl,
    show (5:Nat) &&& 7 = 5 from rfl, show (4:Nat) &&& 7 = 4 from rfl,
    show (3:Nat) &&& 7 = 3 from rfl, show (2:Nat) &&& 7 = 2 from rfl,
    show (1:Nat) &&& 7 = 1 from rfl, show (0:Nat) &&& 7 = 0 from rfl,
    show (15:Nat) &&& 8 = 8 from rfl, show (14:Nat) &&& 8 = 8 from rfl,
    show (13:Nat) &&& 8 = 8 from rfl, show (12:Nat) &&& 8 = 8 from rfl,
    show (11:Nat) &&& 8 = 8 from rfl, show (10:Nat) &&& 8 = 8 from rfl,
    show (9:Nat) &&& 8 = 8 from rfl, show (8:Nat) &&& 8 = 8 from rfl,
    show (7:Nat) &&& 8 = 0 from rfl, show (6:Nat) &&& 8 = 0 from rfl,
    show (5:Nat) &&& 8 = 0 from rfl, show (4:Nat) &&& 8 = 0 from rfl,
    show (3:Nat) &&& 8 = 0 from rfl, show (2:Nat) &&& 8 = 0 from rfl,
    show (1:Nat) &&& 8 = 0 from rfl, show (0:Nat) &&& 8 = 0 from rfl,
    show STEP_TABLE.getD 0 0 = 57 from rfl, show STEP_TABLE.getD 1 0 = 57 from rfl,
    show STEP_TABLE.getD 2 0 = 57 from rfl, show STEP_TABLE.getD 3 0 = 57 from rfl,
    show STEP_TABLE.getD 4 0 = 77 from rfl, show STEP_TABLE.getD 5 0 = 102 from rfl,
    show STEP_TABLE.getD 6 0 = 128 from rfl, show STEP_TABLE.getD 7 0 = 153 from rfl]

/-- Witness for C3 at the reset state and sample 1000. -/
theorem C3_variable_rate_encoder_step_witness :
    (0 : Int) < BState.reset.step_size ∧
    ADPCM_B.encode_sample BState.reset 1000 = specEncodeSampleB BState.reset 1000 :=
  ⟨by decide, (C3_variable_rate_encoder_step BState.reset 1000 (by decide)).1⟩

/-! ## Claim C5: the sprite-tile C-ROM encoder `tile_to_crom` -/

/-- Pixel fetch `tile[y][x]`. -/
def tileGet (tile : List (List Nat)) (y x : Nat) : Nat := (tile.getD y []).getD x 0

/-- Block coordinates `(start_x, start_y)` in the fixed order of
`tile_to_crom`: top-left, bottom-left, top-right, bottom-right. -/
def cromBlocks : List (Nat × Nat) := [(0, 0), (0, 8), (8, 0), (8, 8)]

/-- The 8 pixels of one row of a block, collected reversed so the MSB
is the leftmost pixel: `tile[block_y + row][block_x + (7 - col)]`. -/
def cromRowPixels (tile : List (List Nat)) (block_x block_y row : Nat) : List Nat :=
  (List.range 8).map (fun col => tileGet tile (block_y + row) (block_x + (7 - col)))

/-- Bitplane extraction: bit `i` of the byte is bit `b` of `pixels[i]`
(`bp |= ((px >> b) & 1) << i`). -/
def bitplaneByte (pixels : List Nat) (b : Nat) : Nat :=
  (List.range 8).foldl (fun acc i => acc ||| ((((pixels.getD i 0) >>> b) &&& 1) <<< i)) 0

/-- `tile_to_crom`: convert a 16x16 tile to the two 64-byte C-ROM
planes; per block row, `c1` receives the bitplane-0 and bitplane-1
bytes and `c2` the bitplane-2 and bitplane-3 bytes. -/
def tile_to_crom (tile : List (List Nat)) : List Nat × List Nat :=
  let rows := cromBlocks.flatMap (fun bxy =>
    (List.range 8).map (fun row => cromRowPixels tile bxy.1 bxy.2 row))
  (rows.flatMap (fun ps => [bitplaneByte ps 0, bitplaneByte ps 1]),
   rows.flatMap (fun ps => [bitplaneByte ps 2, bitplaneByte ps 3]))

/-- Spec-side quadrant list for claim C5, in the claimed fixed order
top-left, bottom-left, top-right, bottom-right, as (top row, left column). -/
def specQuadrants : List (Nat × Nat) := [(0, 0), (8, 0), (0, 8), (8, 8)]

/-- Spec-side row byte for claim C5: bit `j` of the packed byte is bit
`b` of the pixel in column `7 - j` of the quadrant row (column 7 in
bit 0, column 0 in bit 7). -/
def specRowByte (tile : List (List Nat)) (top left row b : Nat) : Nat :=
  ((List.range 8).map
    (fun j => ((tileGet tile (top + row) (left + (7 - j)) >>> b) % 2) * 2 ^ j)).sum

/-- Spec-side plane for claim C5: quadrants in fixed order, rows 0..7
top to bottom, two bitplane bytes per row. -/
def specPlane (tile : List (List Nat)) (b0 b1 : Nat) : List Nat :=
  specQuadrants.flatMap (fun q =>
    (List.range 8).flatMap (fun row =>
      [specRowByte tile q.1 q.2 row b0, specRowByte tile q.1 q.2 row b1]))

/-- Assembling eight bits with shifted ors equals the positional sum. -/
theorem nibbleAssembly (v0 v1 v2 v3 v4 v5 v6 v7 : Nat)
    (h0 : v0 < 2) (h1 : v1 < 2) (h2 : v2 < 2) (h3 : v3 < 2)
    (h4 : v4 < 2) (h5 : v5 < 2) (h6 : v6 < 2) (h7 : v7 < 2) :
    (((((((0 ||| v0 <<< 0) ||| v1 <<< 1) ||| v2 <<< 2) ||| v3 <<< 3) ||| v4 <<< 4)
        ||| v5 <<< 5) ||| v6 <<< 6) ||| v7 <<< 7
      = v0 * 2 ^ 0 + (v1 * 2 ^ 1 + (v2 * 2 ^ 2 + (v3 * 2 ^ 3 + (v4 * 2 ^ 4 +
          (v5 * 2 ^ 5 + (v6 * 2 ^ 6 + (v7 * 2 ^ 7 + 0))))))) := by
  interval_cases v0 <;> interval_cases v1 <;> interval_cases v2 <;> interval_cases v3 <;>
    interval_cases v4 <;> interval_cases v5 <;> interval_cases v6 <;> interval_cases v7 <;>
    decide

set_option maxHeartbeats 1000000 in
/-- The source's or-fold bitplane byte equals the spec's positional sum. -/
theorem bitplaneByte_eq_specRowByte (tile : List (List Nat)) (x0 y0 row b : Nat) :
    bitplaneByte (cromRowPixels tile x0 y0 row) b = specRowByte tile y0 x0 row b := by
  have hr : List.range 8 = [0, 1, 2, 3, 4, 5, 6, 7] := rfl
  simp only [bitplaneByte, cromRowPixels, specRowByte, hr, List.map_cons, List.map_nil,
    List.foldl_cons, List.foldl_nil, List.sum_cons, List.sum_nil,
    List.getD_cons_zero, List.getD_cons_succ, Nat.and_one_is_mod]
  exact nibbleAssembly _ _ _ _ _ _ _ _
    (Nat.mod_lt _ (by norm_num)) (Nat.mod_lt _ (by norm_num))
    (Nat.mod_lt _ (by norm_num)) (Nat.mod_lt _ (by norm_num))
    (Nat.mod_lt _ (by norm_num)) (Nat.mod_lt _ (by norm_num))
    (Nat.mod_lt _ (by norm_num)) (Nat.mod_lt _ (by norm_num))

set_option maxHeartbeats 1600000 in
/-- C5: the sprite-tile encoder emits two 64-byte planes, quadrants in
the fixed order top-left, bottom-left, top-right, bottom-right, rows
top to bottom, column 7 in bit 0 and column 0 in bit 7, plane A
receiving the bitplane-0 then bitplane-1 byte per row and plane B the
bitplane-2 then bitplane-3 byte; on the uniform tile of index 1 this
gives plane A alternating 0xFF,0x00 and plane B all 0x00. -/
theorem C5_tile_to_crom_planes (tile : List (List Nat)) :
    tile_to_crom tile = (specPlane tile 0 1, specPlane tile 2 3) ∧
    (tile_to_crom tile).1.length = 64 ∧ (tile_to_crom tile).2.length = 64 ∧
    tile_to_crom (List.replicate 16 (List.replicate 16 1)) =
      ((List.replicate 32 [(255 : Nat), 0]).flatten, List.replicate 64 0) := by
  have hr : List.range 8 = [0, 1, 2, 3, 4, 5, 6, 7] := rfl
  have hmain : tile_to_crom tile = (specPlane tile 0 1, specPlane tile 2 3) := by
    simp only [tile_to_crom, specPlane, cromBlocks, specQuadrants, hr,
      List.flatMap_cons, List.flatMap_nil, List.map_cons, List.map_nil,
      List.append_nil, List.cons_append, List.nil_append,
      bitplaneByte_eq_specRowByte]
  refine ⟨hmain, ?_, ?_, by decide⟩
  · rw [hmain]
    simp only [specPlane, specQuadrants, hr, List.flatMap_cons, List.flatMap_nil,
      List.append_nil, List.cons_append, List.nil_append, List.length_cons,
      List.length_nil]
  · rw [hmain]
    simp only [specPlane, specQuadrants, hr, List.flatMap_cons, List.flatMap_nil,
      List.append_nil, List.cons_append, List.nil_append, List.length_cons,
      List.length_nil]

/-! ## Claim C6: V-ROM audio address layout -/

/-- Address computation of `process_sound_effect` / `process_music`,
iterated over the byte sizes of the packed ADPCM data in processing
order with the running `audio_offset` of `main`: per asset,
`start_addr = current_offset // 256` and
`stop_addr = (current_offset + len(adpcm_data) - 1) // 256`, raising
once a stop address exceeds 0xFFFF. -/
def audioLayout : Int → List Nat → Except String (List (Int × Int))
  | _, [] => .ok []
  | current_offset, size :: rest =>
    let start_addr := Int.fdiv current_offset 256
    let stop_addr := Int.fdiv (current_offset + size - 1) 256
    if stop_addr > 0xFFFF then
      .error "exceeds V-ROM address limit"
    else
      (audioLayout (current_offset + size) rest).map
        (fun l => (start_addr, stop_addr) :: l)

/-- The audio loop of `main`: offset 0, at most 32 sound effects then
at most 32 music tracks, one contiguous offset accumulation. -/
def mainAudioLayout (sfxSizes musicSizes : List Nat) : Except String (List (Int × Int)) :=
  audioLayout 0 (sfxSizes.take 32 ++ musicSizes.take 32)

/-- On success, asset `i` gets `start = (off + prefix sum) / 256` and
`stop = (off + prefix sum through i - 1) / 256` (floor division). -/
theorem audioLayout_ok_spec : ∀ (sizes : List Nat) (off : Int) (layout : List (Int × Int)),
    audioLayout off sizes = .ok layout →
    layout.length = sizes.length ∧
    ∀ i < sizes.length,
      (layout.getD i (0, 0)).1 = (off + ((sizes.take i).sum : Int)) / 256 ∧
      (layout.getD i (0, 0)).2 = (off + ((sizes.take (i + 1)).sum : Int) - 1) / 256
  | [], off, layout, h => by
    simp only [audioLayout] at h
    cases h
    exact ⟨rfl, fun i hi => absurd hi (by simp)⟩
  | size :: rest, off, layout, h => by
    simp only [audioLayout] at h
    split at h
    · exact absurd h (by simp)
    · cases hrec : audioLayout (off + size) rest with
      | error e => rw [hrec] at h; exact absurd h (by simp [Except.map])
      | ok lrec =>
        rw [hrec] at h
        simp only [Except.map] at h
        cases h
        obtain ⟨hlen, hidx⟩ := audioLayout_ok_spec rest (off + size) lrec hrec
        refine ⟨by simp [hlen], ?_⟩
        intro i hi
        cases i with
        | zero =>
          constructor
          · simp only [List.getD_cons_zero, List.take_zero, List.sum_nil]
            rw [Int.fdiv_eq_ediv _ (by norm_num)]
            norm_num
          · simp only [List.getD_cons_zero, List.take_succ_cons, List.take_zero,
              List.sum_cons, List.sum_nil]
            rw [Int.fdiv_eq_ediv _ (by norm_num)]
            push_cast
            ring_nf
        | succ j =>
          obtain ⟨h1, h2⟩ := hidx j (by simpa using hi)
          constructor
          · rw [List.getD_cons_succ, h1, List.take_succ_cons, List.sum_cons]
            push_cast
            ring_nf
          · rw [List.getD_cons_succ, h2, List.take_succ_cons, List.sum_cons]
            push_cast
            ring_nf

/-- The loop raises if and only if some asset's stop address would
exceed 0xFFFF. -/
theorem audioLayout_error_iff : ∀ (sizes : List Nat) (off : Int),
    (∃ e, audioLayout off sizes = .error e) ↔
    ∃ i < sizes.length, (off + ((sizes.take (i + 1)).sum : Int) - 1) / 256 > 0xFFFF
  | [], off => by
    simp only [audioLayout]
    constructor
    · rintro ⟨e, he⟩; cases he
    · rintro ⟨i, hi, _⟩; exact absurd hi (by simp)
  | size :: rest, off => by
    simp only [audioLayout]
    by_cases hstop : Int.fdiv (off + size - 1) 256 > 0xFFFF
    · simp only [hstop, if_true, ite_true]
      constructor
      · intro _
        refine ⟨0, by simp, ?_⟩
        simp only [List.take_succ_cons, List.take_zero, List.sum_cons, List.sum_nil]
        rw [Int.fdiv_eq_ediv _ (by norm_num)] at hstop
        push_cast
        omega
      · intro _
        exact ⟨"exceeds V-ROM address limit", rfl⟩
    · simp only [hstop, if_false, ite_false]
      have hrec := audioLayout_error_iff rest (off + size)
      constructor
      · rintro ⟨e, he⟩
        have hx2 : ∃ e, audioLayout (off + size) rest = .error e := by
          cases hx : audioLayout (off + size) rest with
          | error e2 => exact ⟨e2, rfl⟩
          | ok l => rw [hx] at he; exact absurd he (by simp [Except.map])
        obtain ⟨j, hj, hgt⟩ := hrec.1 hx2
        refine ⟨j + 1, by simpa using hj, ?_⟩
        rw [List.take_succ_cons, List.sum_cons]
        push_cast at hgt ⊢
        omega
      · rintro ⟨i, hi, hgt⟩
        cases i with
        | zero =>
          exfalso
          simp only [List.take_succ_cons, List.take_zero, List.sum_cons, List.sum_nil] at hgt
          rw [Int.fdiv_eq_ediv _ (by norm_num)] at hstop
          push_cast at hgt
          omega
        | succ j =>
          obtain ⟨e, he⟩ := hrec.2 ⟨j, by simpa using hi, by
            rw [List.take_succ_cons, List.sum_cons] at hgt
            push_cast at hgt ⊢
            omega⟩
          refine ⟨e, ?_⟩
          rw [he]
          simp [Except.map]

/-- C6: with audio assets packed contiguously from offset 0 in
processing order (sound effects then music), asset `i` records
`start = floor(prior size sum / 256)` and
`stop = ceil(size sum through i / 256) - 1` (the latter written as
`(sum + 255) / 256 - 1`), and processing errors exactly when a stop
address exceeds 0xFFFF. -/
theorem C6_audio_addresses (sfxSizes musicSizes : List Nat) :
    (∀ layout, mainAudioLayout sfxSizes musicSizes = .ok layout →
      layout.length = (sfxSizes.take 32 ++ musicSizes.take 32).length ∧
      ∀ i < (sfxSizes.take 32 ++ musicSizes.take 32).length,
        (layout.getD i (0, 0)).1 =
          ((((sfxSizes.take 32 ++ musicSizes.take 32).take i).sum : Int)) / 256 ∧
        (layout.getD i (0, 0)).2 =
          ((((sfxSizes.take 32 ++ musicSizes.take 32).take (i + 1)).sum : Int) + 255) / 256
            - 1) ∧
    ((∃ e, mainAudioLayout sfxSizes musicSizes = .error e) ↔
      ∃ i < (sfxSizes.take 32 ++ musicSizes.take 32).length,
        ((((sfxSizes.take 32 ++ musicSizes.take 32).take (i + 1)).sum : Int) + 255) / 256 - 1
          > 0xFFFF) := by
  constructor
  · intro layout hok
    obtain ⟨hlen, hidx⟩ := audioLayout_ok_spec _ 0 layout hok
    refine ⟨hlen, fun i hi => ?_⟩
    obtain ⟨h1, h2⟩ := hidx i hi
    refine ⟨by rw [h1]; norm_num, by rw [h2]; omega⟩
  · refine (audioLayout_error_iff (sfxSizes.take 32 ++ musicSizes.take 32) 0).trans ⟨?_, ?_⟩
    · rintro ⟨i, hi, hgt⟩
      exact ⟨i, hi, by omega⟩
    · rintro ⟨i, hi, hgt⟩
      exact ⟨i, hi, by omega⟩

/-- Witness for C6 at sizes 300 (sound effect) and 600 (music): the
second asset spans offsets 300..899, so stop address 3. -/
theorem C6_audio_addresses_witness :
    (([((0 : Int), (1 : Int)), (1, 3)].getD 1 ((0 : Int), (0 : Int))).2 =
      ((((([(300 : Nat)].take 32 ++ [(600 : Nat)].take 32)).take 2).sum : Int) + 255) / 256
        - 1) :=
  (((C6_audio_addresses [300] [600]).1 [(0, 1), (1, 3)] rfl).2 1 (by decide)).2

/-! ## Claim C7: the palette registry -/

/-- One palette registry entry: assigned index and quantized colors. -/
structure PaletteEntry where
  index : Nat
  colors : List Nat
deriving Repr, DecidableEq

/-- `palette_registry` of `main`: named entries plus the internal
`_next_index` counter. -/
structure PaletteRegistry where
  entries : List (String × PaletteEntry)
  next_index : Nat
deriving Repr, DecidableEq

/-- `name in palette_registry` / `palette_registry[name]` lookup. -/
def PaletteRegistry.find (reg : PaletteRegistry) (name : String) : Option PaletteEntry :=
  (reg.entries.find? (fun p => p.1 == name)).map (fun p => p.2)

/-- Initial registry of `main`: indices 0-1 reserved for the system,
auto-assignment starts at 2. -/
def PaletteRegistry.init : PaletteRegistry := { entries := [], next_index := 2 }

/-- The automatic registration path of `process_visual_asset`: if the
name is absent, store the palette at `_next_index` and increment the
counter; in both cases return the stored entry's index. -/
def registerAuto (reg : PaletteRegistry) (name : String) (colors : List Nat) :
    PaletteRegistry × Nat :=
  match reg.find name with
  | some e => (reg, e.index)
  | none =>
    ({ entries := reg.entries ++ [(name, { index := reg.next_index, colors := colors })],
       next_index := reg.next_index + 1 }, reg.next_index)

/-- C7: a name that already has an entry is returned unchanged (no
reassignment, no second increment); a genuinely new name receives the
counter value as its index and increments the counter by exactly 1;
registrations of other names never disturb an existing entry; the
counter starts at 2. -/
theorem C7_palette_registry (reg : PaletteRegistry) (name other : String)
    (colors : List Nat) :
    PaletteRegistry.init.next_index = 2 ∧
    (∀ e, reg.find name = some e → registerAuto reg name colors = (reg, e.index)) ∧
    (reg.find name = none →
      ((registerAuto reg name colors).1.find name =
          some { index := reg.next_index, colors := colors } ∧
        (registerAuto reg name colors).1.next_index = reg.next_index + 1 ∧
        (registerAuto reg name colors).2 = reg.next_index)) ∧
    (∀ e, reg.find other = some e → (registerAuto reg name colors).1.find other = some e) := by
  refine ⟨rfl, ?_, ?_, ?_⟩
  · intro e he
    simp only [registerAuto, he]
  · intro hn
    have hfind : reg.entries.find? (fun p => p.1 == name) = none := by
      simp only [PaletteRegistry.find] at hn
      cases hx : reg.entries.find? (fun p => p.1 == name) with
      | none => rfl
      | some p => rw [hx] at hn; simp at hn
    refine ⟨?_, ?_, ?_⟩
    · simp only [registerAuto, hn]
      simp only [PaletteRegistry.find, List.find?_append, hfind, Option.none_or]
      simp [List.find?]
    · simp only [registerAuto, hn]
    · simp only [registerAuto, hn]
  · intro e he
    cases hx : reg.find name with
    | some e2 => simp only [registerAuto, hx]; exact he
    | none =>
      simp only [registerAuto, hx]
      simp only [PaletteRegistry.find] at he ⊢
      cases hy : reg.entries.find? (fun p => p.1 == other) with
      | none => rw [hy] at he; simp at he
      | some p =>
        rw [hy] at he
        rw [List.find?_append, hy]
        simpa using he

/-- Witness for C7: registering a fresh name in the initial registry
assigns index 2. -/
theorem C7_palette_registry_witness :
    PaletteRegistry.init.find "a" = none ∧
    (registerAuto PaletteRegistry.init "a" [1, 2]).1.find "a" =
      some { index := 2, colors := [1, 2] } := by
  constructor
  · rfl
  · exact ((C7_palette_registry PaletteRegistry.init "a" "b" [1, 2]).2.2.1 rfl).1

/-! ## Claim C8: TMX tile-grid parsing -/

/-- Cell normalization of `parse_tmx_file`: a stored value of 0 means
empty and stays 0; any other value has the tileset's `firstgid`
subtracted. -/
def normalizeTileId (firstgid : Int) (tile_id : Int) : Int :=
  if tile_id = 0 then 0 else tile_id - firstgid

/-- `bytes([min(255, max(0, t)) for t in tile_ids])`, clamping each
index into an unsigned byte. -/
def clampByte (t : Int) : Nat := (min 255 (max 0 t)).toNat

/-- Core of `parse_tmx_file` on the parsed CSV cell values of the
selected layer of width `layer_width` and height `layer_height`:
normalize the ids, check the cell count against the layer dimensions,
and clamp each index to an unsigned byte. -/
def parse_tmx_tiles (layer_width layer_height : Nat) (firstgid : Int)
    (cells : List Int) : Except String (List Nat) :=
  let tile_ids := cells.map (normalizeTileId firstgid)
  if tile_ids.length ≠ layer_width * layer_height then
    .error "tile count mismatch"
  else
    .ok (tile_ids.map clampByte)

/-- Mapping preserves indexed access below the length. -/
theorem getD_map_nat (f : Int → Nat) :
    ∀ (l : List Int) (i : Nat), i < l.length → (l.map f).getD i 0 = f (l.getD i 0)
  | [], i, hi => absurd hi (by simp)
  | x :: xs, 0, _ => by simp
  | x :: xs, i + 1, hi => by
    simp only [List.map_cons, List.getD_cons_succ]
    exact getD_map_nat f xs i (by simpa using hi)

/-- C8: a successful parse of a W x H layer yields exactly W*H bytes;
a stored cell value of 0 yields byte 0 regardless of the first-id
offset, and every other cell yields its stored id minus the offset,
clamped to [0, 255]. -/
theorem C8_parse_tmx_tiles (w h : Nat) (g : Int) (cells : List Int) (out : List Nat)
    (hok : parse_tmx_tiles w h g cells = .ok out) :
    out.length = w * h ∧
    ∀ i < out.length,
      out.getD i 0 = clampByte (normalizeTileId g (cells.getD i 0)) ∧
      (cells.getD i 0 = 0 → out.getD i 0 = 0) ∧
      (cells.getD i 0 ≠ 0 →
        out.getD i 0 = (min 255 (max 0 (cells.getD i 0 - g))).toNat) := by
  simp only [parse_tmx_tiles] at hok
  split at hok
  · exact absurd hok (by simp)
  · rename_i hlen
    simp only [List.length_map, ne_eq, not_not] at hlen
    cases hok
    rw [List.map_map]
    refine ⟨by simpa using hlen, ?_⟩
    intro i hi
    simp only [List.length_map] at hi
    have hmap : ((cells.map (normalizeTileId g)).map clampByte).getD i 0 =
        clampByte (normalizeTileId g (cells.getD i 0)) := by
      rw [List.map_map]
      exact getD_map_nat _ cells i (by simpa using hi)
    rw [List.map_map] at hmap
    refine ⟨hmap, ?_, ?_⟩
    · intro h0
      rw [hmap, h0]
      rfl
    · intro h0
      rw [hmap]
      simp only [normalizeTileId, clampByte]
      rw [if_neg h0]

/-- Witness for C8: a 2x1 layer with cells (0, 7) and first-id 5 parses
to bytes (0, 2); the zero cell stays 0 despite the offset. -/
theorem C8_parse_tmx_tiles_witness :
    parse_tmx_tiles 2 1 5 [0, 7] = .ok [0, 2] ∧ [(0 : Nat), 2].getD 0 0 = 0 := by
  refine ⟨rfl, ?_⟩
  exact (C8_parse_tmx_tiles 2 1 5 [0, 7] [0, 2] rfl).2 0 (by decide) |>.2.1 rfl

/-! ## Claim C9: collision flags and explicit overrides -/

/-- The fixed collision vocabulary shared by `parse_tmx_file` and
`process_tilemap_asset`: solid=0x01 .. ladder=0x40, anything else 0. -/
def collisionFlagBit (name : String) : Nat :=
  if name = "solid" then 0x01
  else if name = "platform" then 0x02
  else if name = "slope_l" then 0x04
  else if name = "slope_r" then 0x08
  else if name = "hazard" then 0x10
  else if name = "trigger" then 0x20
  else if name = "ladder" then 0x40
  else 0

/-- `prop_value in ('true', '1', 'yes')` (values lowercased upstream). -/
def truthy (value : String) : Bool :=
  value = "true" ∨ value = "1" ∨ value = "yes"

/-- Flag accumulation over one tile's properties in `parse_tmx_file`. -/
def tilePropFlags (props : List (String × String)) : Nat :=
  props.foldl (fun flags p =>
    if truthy p.2 then flags ||| collisionFlagBit p.1 else flags) 0

/-- `dict.get(k, d)` on an association list. -/
def dictGet (m : List (Int × Nat)) (k : Int) (d : Nat) : Nat :=
  ((m.find? (fun p => p.1 == k)).map (fun p => p.2)).getD d

/-- `dict[k] = v`: overwrite in place, or append a new binding. -/
def dictSet (m : List (Int × Nat)) (k : Int) (v : Nat) : List (Int × Nat) :=
  if m.any (fun p => p.1 == k) then
    m.map (fun p => if p.1 == k then (k, v) else p)
  else m ++ [(k, v)]

/-- The auto-extracted `collision_map` of `parse_tmx_file`: tile ids
whose properties yield a nonzero flag byte. -/
def autoCollisionMap (tiles : List (Int × List (String × String))) : List (Int × Nat) :=
  tiles.foldl (fun m t =>
    let flags := tilePropFlags t.2
    if flags ≠ 0 then dictSet m t.1 flags else m) []

/-- The auto-extracted per-cell `collision_data` of `parse_tmx_file`
(`None` when no tile carries collision properties). -/
def autoCollisionData (tiles : List (Int × List (String × String)))
    (tile_ids : List Int) : Option (List Nat) :=
  let m := autoCollisionMap tiles
  if m.isEmpty then none else some (tile_ids.map (fun t => dictGet m t 0))

/-- The override `collision_map` built from the YAML `collision:`
section in `process_tilemap_asset` (`collision_map[idx] =
collision_map.get(idx, 0) | flag`). -/
def overrideCollisionMap (collision_config : List (String × List Int)) : List (Int × Nat) :=
  collision_config.foldl (fun m c =>
    let flag := collisionFlagBit c.1
    if flag ≠ 0 ∧ c.2 ≠ [] then
      c.2.foldl (fun m2 idx => dictSet m2 idx (dictGet m2 idx 0 ||| flag)) m
    else m) []

/-- The override application of `process_tilemap_asset`: when the
override map is nonempty the whole per-cell table is rebuilt from it
over `tile_data`; otherwise `collision_data` is kept. -/
def applyCollisionOverrides (collision_config : List (String × List Int))
    (tile_data : List Nat) (collision_data : Option (List Nat)) : Option (List Nat) :=
  let m := overrideCollisionMap collision_config
  if m.isEmpty then collision_data
  else some (tile_data.map (fun t => dictGet m (t : Int) 0))

/-- Counterexample to C9 as stated: the grid (5, 7) with tile 5 marked
solid in the tile properties and an explicit override solid=[7].  The
claim predicts cell 0 keeps its auto-extracted flag 0x01 giving
(1, 1); the code rebuilds the whole table from the override map and
yields (0, 1). -/
theorem C9_override_counterexample :
    autoCollisionData [(5, [("solid", "true")])] [5, 7] = some [1, 0] ∧
    applyCollisionOverrides [("solid", [7])] [5, 7] (some [1, 0]) = some [0, 1] ∧
    ([(0 : Nat), 1] : List Nat) ≠ [1, 1] := by
  refine ⟨rfl, rfl, by decide⟩

/-- C9 (amended): when the explicit overrides produce a nonempty map,
the entire per-cell table is rebuilt from that map alone - listed tile
ids receive exactly their override flags and unlisted ids receive 0,
the auto-extracted flags being discarded; when no valid override is
given the auto-extracted data is kept unchanged; the vocabulary is
solid=0x01, platform=0x02, slope_l=0x04, slope_r=0x08, hazard=0x10,
trigger=0x20, ladder=0x40. -/
theorem C9_override_replaces_table (cfg : List (String × List Int)) (tile_data : List Nat)
    (auto : Option (List Nat)) :
    (overrideCollisionMap cfg ≠ [] →
      applyCollisionOverrides cfg tile_data auto =
        some (tile_data.map (fun t => dictGet (overrideCollisionMap cfg) (t : Int) 0))) ∧
    (overrideCollisionMap cfg = [] →
      applyCollisionOverrides cfg tile_data auto = auto) ∧
    (∀ k : Int, (overrideCollisionMap cfg).find? (fun p => p.1 == k) = none →
      dictGet (overrideCollisionMap cfg) k 0 = 0) ∧
    collisionFlagBit "solid" = 0x01 ∧ collisionFlagBit "platform" = 0x02 ∧
    collisionFlagBit "slope_l" = 0x04 ∧ collisionFlagBit "slope_r" = 0x08 ∧
    collisionFlagBit "hazard" = 0x10 ∧ collisionFlagBit "trigger" = 0x20 ∧
    collisionFlagBit "ladder" = 0x40 := by
  refine ⟨?_, ?_, ?_, rfl, rfl, rfl, rfl, rfl, rfl, rfl⟩
  · intro hne
    simp only [applyCollisionOverrides]
    rw [if_neg (by simpa [List.isEmpty_iff] using hne)]
  · intro heq
    simp only [applyCollisionOverrides]
    rw [if_pos (by simpa [List.isEmpty_iff] using heq)]
  · intro k hk
    simp only [dictGet, hk]
    rfl

/-- Witness for the amended C9 at the counterexample's input. -/
theorem C9_override_replaces_table_witness :
    overrideCollisionMap [("solid", [7])] ≠ [] ∧
    applyCollisionOverrides [("solid", [7])] [5, 7] (some [1, 0]) =
      some ([(5 : Nat), 7].map
        (fun t => dictGet (overrideCollisionMap [("solid", [7])]) (t : Int) 0)) :=
  ⟨by decide, (C9_override_replaces_table [("solid", [7])] [5, 7] (some [1, 0])).1 (by decide)⟩

end NGRes
